import Mathlib

/-!
Shallow embedding of the "Sevens & Melds" card-game rules engine
(src/utils/gameLogic, src/constants.ts, src/App.tsx) and proofs of the
specification claims about it.

Conventions of the embedding:
* TypeScript `number` is modelled as `Int` where arithmetic can go negative
  (sort values, sequence bounds, scores) and as `Nat` for list indices.
* TypeScript array indexing `a[i]` (which yields `undefined` out of range)
  is modelled with `List.getD` / `Option`-returning accessors; theorems that
  need in-range indices carry that as an explicit hypothesis.
* React state updates are modelled as pure functions from the relevant part
  of the game state to its successor.
-/

namespace Sevens

/-- Suit enumeration (src `Suit`): four natural suits plus the wild suit. -/
inductive Suit where
  | hearts
  | diamonds
  | clubs
  | spades
  | joker
deriving DecidableEq, Repr, Inhabited

/-- Rank enumeration (src `Rank`): Ace..King plus the wild rank. -/
inductive Rank where
  | ace
  | two
  | three
  | four
  | five
  | six
  | seven
  | eight
  | nine
  | ten
  | jack
  | queen
  | king
  | joker
deriving DecidableEq, Repr, Inhabited, Fintype

/-- src `constants.ts` `RANKS`: the 13 standard ranks in order. -/
def RANKS : List Rank :=
  [.ace, .two, .three, .four, .five, .six, .seven, .eight, .nine, .ten,
   .jack, .queen, .king]

/-- src `constants.ts` `SUITS`: the four natural suits. -/
def SUITS : List Suit := [.hearts, .diamonds, .clubs, .spades]

/-- src `constants.ts` `getSortValue`: Joker is 99, otherwise index in
`RANKS` plus one (Ace = 1 .. King = 13). -/
def getSortValue (rank : Rank) : Int :=
  if rank = .joker then 99
  else (RANKS.indexOf rank : Int) + 1

/-- src `constants.ts` `getPoints`: Joker 30, Seven 15, face cards 10,
Ace 1, numerals their face value. -/
def getPoints : Rank → Int
  | .joker => 30
  | .seven => 15
  | .jack => 10
  | .queen => 10
  | .king => 10
  | .ace => 1
  | .two => 2
  | .three => 3
  | .four => 4
  | .five => 5
  | .six => 6
  | .eight => 8
  | .nine => 9
  | .ten => 10

/-- src `types.ts` `Card`. The string id is modelled as a `Nat` token. -/
structure Card where
  id : Nat
  suit : Suit
  rank : Rank
  value : Int
  sortValue : Int
  isJoker : Bool
deriving DecidableEq, Repr, Inhabited

/-- src `types.ts` `BoardSequence`. -/
structure BoardSequence where
  suit : Suit
  low : Int
  high : Int
  hasSeven : Bool
deriving DecidableEq, Repr, Inhabited

/-- src `Record<Suit, BoardSequence>`: one board sequence per suit
(including the joker row, which the game seeds at 0/0). -/
structure Sequences where
  hearts : BoardSequence
  diamonds : BoardSequence
  clubs : BoardSequence
  spades : BoardSequence
  jokerRow : BoardSequence
deriving DecidableEq, Repr, Inhabited

/-- Field lookup `sequences[suit]`. -/
def Sequences.get (s : Sequences) : Suit → BoardSequence
  | .hearts => s.hearts
  | .diamonds => s.diamonds
  | .clubs => s.clubs
  | .spades => s.spades
  | .joker => s.jokerRow

/-- Field update `sequences[suit] = b`. -/
def Sequences.set (s : Sequences) : Suit → BoardSequence → Sequences
  | .hearts, b => { s with hearts := b }
  | .diamonds, b => { s with diamonds := b }
  | .clubs, b => { s with clubs := b }
  | .spades, b => { s with spades := b }
  | .joker, b => { s with jokerRow := b }

/-- The `initialSequences` literal used at game and round start:
every natural suit seeded at 7/7 without its seven, joker row at 0/0. -/
def initialSequences : Sequences :=
  { hearts := { suit := .hearts, low := 7, high := 7, hasSeven := false }
    diamonds := { suit := .diamonds, low := 7, high := 7, hasSeven := false }
    clubs := { suit := .clubs, low := 7, high := 7, hasSeven := false }
    spades := { suit := .spades, low := 7, high := 7, hasSeven := false }
    jokerRow := { suit := .joker, low := 0, high := 0, hasSeven := false } }

/-- src `gameLogic` `canPlayOnBoard`: jokers are wild; a 7 plays iff its
suit lacks its seven; any other card needs the seven down and a sort value
adjacent to one of the bounds. -/
def canPlayOnBoard (card : Card) (sequences : Sequences) : Bool :=
  if card.isJoker then true
  else if card.rank = .seven then !(sequences.get card.suit).hasSeven
  else
    let seq := sequences.get card.suit
    if !seq.hasSeven then false
    else decide (card.sortValue = seq.high + 1) || decide (card.sortValue = seq.low - 1)

/-- src `gameLogic` `calculateHandPoints`: sum of card values. -/
def calculateHandPoints (hand : List Card) : Int :=
  hand.foldl (fun sum card => sum + card.value) 0

/-- src `types.ts` `JokerDeclaration`. -/
structure JokerDeclaration where
  cardId : Nat
  representedSuit : Suit
  representedRank : Rank
deriving DecidableEq, Repr, Inhabited

/-- src `types.ts` `Player` (presentation-only fields dropped to the ones
the engine reads). -/
structure Player where
  id : Nat
  hand : List Card
  score : Int
  melds : List (List Card)
deriving DecidableEq, Repr, Inhabited

/-- Whether a card is matched by some recorded joker declaration
(the `jokerDeclarations.some (...)` test in `applyFinalScores`). -/
def matchesDeclaration (jokerDeclarations : List JokerDeclaration) (card : Card) : Bool :=
  jokerDeclarations.any fun decl =>
    decide (decl.representedRank = card.rank) && decide (decl.representedSuit = card.suit)

/-- The per-player round score of src `applyFinalScores`: hand points, then
a further 30 for each non-joker card matched by a declaration. -/
def adjustedPoints (jokerDeclarations : List JokerDeclaration) (p : Player) : Int :=
  p.hand.foldl
    (fun pts card =>
      if !card.isJoker && matchesDeclaration jokerDeclarations card then pts + 30 else pts)
    (calculateHandPoints p.hand)

/-- `forEach((p, idx) => ...)` translation: map with the element index,
starting the count at `n`. -/
def mapIdxFrom {α β : Type} (f : Nat → α → β) : Nat → List α → List β
  | _, [] => []
  | n, a :: as => f n a :: mapIdxFrom f (n + 1) as

/-- src `gameLogic` `applyFinalScores`: compute every player's adjusted
round score, detect an undercut (some non-knocker at or below the knocker),
then either charge the whole round to the knocker or everyone their own. -/
def applyFinalScores (players : List Player) (knockerIndex : Nat)
    (jokerDeclarations : List JokerDeclaration) : List Player :=
  let roundScores := players.map (adjustedPoints jokerDeclarations)
  let knockerScore := roundScores.getD knockerIndex 0
  let undercut := (List.range players.length).any fun i =>
    decide (i ≠ knockerIndex) && decide (roundScores.getD i 0 ≤ knockerScore)
  if undercut then
    let totalPoints := roundScores.foldl (· + ·) 0
    mapIdxFrom
      (fun i p => if i = knockerIndex then { p with score := p.score + totalPoints } else p)
      0 players
  else
    mapIdxFrom (fun i p => { p with score := p.score + roundScores.getD i 0 }) 0 players

/-- Spec-side matching condition: some recorded declaration names exactly
this card's (suit, rank). -/
def specMatches (jokerDeclarations : List JokerDeclaration) (card : Card) : Prop :=
  ∃ d ∈ jokerDeclarations,
    d.representedRank = card.rank ∧ d.representedSuit = card.suit

instance (decls : List JokerDeclaration) (card : Card) :
    Decidable (specMatches decls card) := by
  unfold specMatches; infer_instance

/-- Spec-side adjusted total: hand points plus 30 for each non-wild card
matched by some recorded declaration. -/
def specAdjusted (jokerDeclarations : List JokerDeclaration) (p : Player) : Int :=
  calculateHandPoints p.hand +
    30 * (p.hand.countP fun c =>
      decide (c.isJoker = false ∧ specMatches jokerDeclarations c) : Nat)

lemma matchesDeclaration_iff (decls : List JokerDeclaration) (card : Card) :
    matchesDeclaration decls card = true ↔ specMatches decls card := by
  unfold matchesDeclaration specMatches
  simp [List.any_eq_true]

lemma foldl_add30_eq (cond : Card → Bool) (l : List Card) (b : Int) :
    l.foldl (fun pts card => if cond card then pts + 30 else pts) b =
      b + 30 * (l.countP cond : Nat) := by
  induction l generalizing b with
  | nil => simp
  | cons c t ih =>
    by_cases h : cond c
    · simp [List.foldl_cons, List.countP_cons, h, ih]; ring
    · simp [List.foldl_cons, List.countP_cons, h, ih]

lemma adjustedPoints_eq (decls : List JokerDeclaration) (p : Player) :
    adjustedPoints decls p = specAdjusted decls p := by
  unfold adjustedPoints specAdjusted
  rw [foldl_add30_eq]
  have hcnt : List.countP (fun card => !card.isJoker && matchesDeclaration decls card) p.hand
      = List.countP (fun c => decide (c.isJoker = false ∧ specMatches decls c)) p.hand := by
    apply List.countP_congr
    intro c _
    constructor
    · intro h
      rw [Bool.and_eq_true, Bool.not_eq_true'] at h
      exact decide_eq_true ⟨h.1, (matchesDeclaration_iff decls c).mp h.2⟩
    · intro h
      have h' := of_decide_eq_true h
      rw [Bool.and_eq_true, Bool.not_eq_true']
      exact ⟨h'.1, (matchesDeclaration_iff decls c).mpr h'.2⟩
  rw [hcnt]

lemma length_mapIdxFrom {α β : Type} (f : Nat → α → β) :
    ∀ (n : Nat) (l : List α), (mapIdxFrom f n l).length = l.length := by
  intro n l
  induction l generalizing n with
  | nil => rfl
  | cons a t ih => simp [mapIdxFrom, ih]

lemma getD_mapIdxFrom {α β : Type} (f : Nat → α → β) (dα : α) (dβ : β) :
    ∀ (n : Nat) (l : List α) (i : Nat), i < l.length →
      (mapIdxFrom f n l).getD i dβ = f (n + i) (l.getD i dα) := by
  intro n l
  induction l generalizing n with
  | nil => intro i h; simp at h
  | cons a t ih =>
    intro i h
    cases i with
    | zero => simp [mapIdxFrom]
    | succ j =>
      simp only [mapIdxFrom, List.getD_cons_succ]
      rw [ih (n + 1) j (by simpa using h)]
      congr 1
      omega

lemma getD_map_of_lt {α β : Type} [Inhabited α] (g : α → β) (l : List α)
    (i : Nat) (d : β) (h : i < l.length) :
    (l.map g).getD i d = g (l.getD i default) := by
  induction l generalizing i with
  | nil => simp at h
  | cons a t ih =>
    cases i with
    | zero => simp
    | succ j => simpa using ih j (by simpa using h)

lemma foldl_add_eq_sum (l : List Int) (b : Int) : l.foldl (· + ·) b = b + l.sum := by
  induction l generalizing b with
  | nil => simp
  | cons a t ih => simp [List.foldl_cons, ih, List.sum_cons]; ring

/-- C1. Round-end scoring: each player's adjusted total is hand points plus
30 per declared non-wild card; undercut holds iff some non-knocking player's
adjusted total is at most the knocker's; under an undercut the knocker alone
gains the sum of all adjusted totals, otherwise everyone gains their own. -/
theorem applyFinalScores_spec (players : List Player) (k : Nat)
    (decls : List JokerDeclaration) (hk : k < players.length) :
    (applyFinalScores players k decls).length = players.length ∧
    ((∃ i < players.length, i ≠ k ∧
        specAdjusted decls (players.getD i default) ≤
          specAdjusted decls (players.getD k default)) →
      ∀ i < players.length,
        ((applyFinalScores players k decls).getD i default).score =
          (players.getD i default).score +
            (if i = k then (players.map (specAdjusted decls)).sum else 0)) ∧
    ((¬ ∃ i < players.length, i ≠ k ∧
        specAdjusted decls (players.getD i default) ≤
          specAdjusted decls (players.getD k default)) →
      ∀ i < players.length,
        ((applyFinalScores players k decls).getD i default).score =
          (players.getD i default).score +
            specAdjusted decls (players.getD i default)) := by
  have hmapfun : adjustedPoints decls = specAdjusted decls :=
    funext fun p => adjustedPoints_eq decls p
  have hrs : ∀ i, i < players.length →
      (players.map (adjustedPoints decls)).getD i 0 =
        specAdjusted decls (players.getD i default) := by
    intro i hi
    rw [getD_map_of_lt (adjustedPoints decls) players i 0 hi, adjustedPoints_eq]
  have hund :
      ((List.range players.length).any fun i =>
        decide (i ≠ k) &&
          decide ((players.map (adjustedPoints decls)).getD i 0 ≤
            (players.map (adjustedPoints decls)).getD k 0)) = true ↔
      (∃ i < players.length, i ≠ k ∧
        specAdjusted decls (players.getD i default) ≤
          specAdjusted decls (players.getD k default)) := by
    rw [List.any_eq_true]
    constructor
    · rintro ⟨i, hmem, hp⟩
      rw [List.mem_range] at hmem
      rw [Bool.and_eq_true, decide_eq_true_eq, decide_eq_true_eq] at hp
      refine ⟨i, hmem, hp.1, ?_⟩
      rw [← hrs i hmem, ← hrs k hk]
      exact hp.2
    · rintro ⟨i, hmem, hne, hle⟩
      refine ⟨i, List.mem_range.mpr hmem, ?_⟩
      rw [Bool.and_eq_true, decide_eq_true_eq, decide_eq_true_eq]
      exact ⟨hne, by rw [hrs i hmem, hrs k hk]; exact hle⟩
  unfold applyFinalScores
  by_cases hcase :
      (∃ i < players.length, i ≠ k ∧
        specAdjusted decls (players.getD i default) ≤
          specAdjusted decls (players.getD k default))
  · rw [if_pos (hund.mpr hcase)]
    refine ⟨length_mapIdxFrom _ _ _, fun _ i hi => ?_, fun hn => absurd hcase hn⟩
    rw [getD_mapIdxFrom _ default default 0 players i hi]
    simp only [Nat.zero_add]
    have hsum : (players.map (adjustedPoints decls)).foldl (· + ·) 0 =
        (players.map (specAdjusted decls)).sum := by
      rw [foldl_add_eq_sum, hmapfun]; ring
    by_cases hik : i = k
    · simp [hik, hsum]
    · simp [hik]
  · rw [if_neg (fun hb => hcase (hund.mp hb))]
    refine ⟨length_mapIdxFrom _ _ _, fun h => absurd h hcase, fun _ i hi => ?_⟩
    rw [getD_mapIdxFrom _ default default 0 players i hi]
    simp only [Nat.zero_add]
    rw [hrs i hi]

/-- A concrete ace of spades (value 1). -/
def wCardAce : Card :=
  { id := 1, suit := .spades, rank := .ace, value := 1, sortValue := 1, isJoker := false }

/-- A concrete king of diamonds (value 10). -/
def wCardKing : Card :=
  { id := 2, suit := .diamonds, rank := .king, value := 10, sortValue := 13, isJoker := false }

/-- Two concrete players: a 1-point hand and a 10-point hand. -/
def wPlayersC1 : List Player :=
  [{ id := 0, hand := [wCardAce], score := 0, melds := [] },
   { id := 1, hand := [wCardKing], score := 0, melds := [] }]

/-- C1 witness: with a 1-point knocker against a 10-point opponent there is
no undercut, and the opponent gains exactly their own adjusted total. -/
theorem applyFinalScores_spec_witness :
    ((applyFinalScores wPlayersC1 0 []).getD 1 default).score =
      (wPlayersC1.getD 1 default).score + specAdjusted [] (wPlayersC1.getD 1 default) :=
  (applyFinalScores_spec wPlayersC1 0 [] (by decide)).2.2 (by decide) 1 (by decide)

/-- Whether at least one natural suit has its seven on the board. -/
def someSuitHasSeven (s : Sequences) : Bool :=
  SUITS.any fun suit => (s.get suit).hasSeven

/-- A concrete joker (wild) card. -/
def wJoker : Card :=
  { id := 3, suit := .joker, rank := .joker, value := 30, sortValue := 99, isJoker := true }

/-- C2 counterexample: on the fresh board no suit has its seven, yet
`canPlayOnBoard` already accepts a wild card, so "playable iff at least one
suit's sequence has its seven" fails at this input. -/
theorem canPlayOnBoard_wild_gate_counterexample :
    canPlayOnBoard wJoker initialSequences = true ∧
      someSuitHasSeven initialSequences = false := by
  decide

/-- C2 amended: `canPlayOnBoard` returns true for every wild card
unconditionally; it never consults the board's `hasSeven` flags for wilds. -/
theorem canPlayOnBoard_wild_always (card : Card) (seqs : Sequences)
    (h : card.isJoker = true) : canPlayOnBoard card seqs = true := by
  simp [canPlayOnBoard, h]

/-- C2 amended witness: the wild card is accepted on the fresh board. -/
theorem canPlayOnBoard_wild_always_witness :
    canPlayOnBoard wJoker initialSequences = true :=
  canPlayOnBoard_wild_always wJoker initialSequences rfl

lemma canPlayOnBoard_seven_iff (card : Card) (seqs : Sequences)
    (hj : card.isJoker = false) (h7 : card.rank = .seven) :
    canPlayOnBoard card seqs = true ↔ (seqs.get card.suit).hasSeven = false := by
  simp [canPlayOnBoard, hj, h7]

lemma canPlayOnBoard_other_iff (card : Card) (seqs : Sequences)
    (hj : card.isJoker = false) (h7 : card.rank ≠ .seven) :
    canPlayOnBoard card seqs = true ↔
      (seqs.get card.suit).hasSeven = true ∧
        (card.sortValue = (seqs.get card.suit).high + 1 ∨
          card.sortValue = (seqs.get card.suit).low - 1) := by
  by_cases hs : (seqs.get card.suit).hasSeven = true
  · simp [canPlayOnBoard, hj, h7, hs]
  · rw [Bool.not_eq_true] at hs
    simp [canPlayOnBoard, hj, h7, hs]

/-- C4. For non-wild cards: a seven is playable iff its suit still lacks its
seven; any other card is playable iff its suit's seven is down and its sort
value is exactly one above the high bound or one below the low bound. -/
theorem canPlayOnBoard_nonwild_spec (card : Card) (seqs : Sequences)
    (hj : card.isJoker = false) :
    (card.rank = .seven →
      (canPlayOnBoard card seqs = true ↔ (seqs.get card.suit).hasSeven = false)) ∧
    (card.rank ≠ .seven →
      (canPlayOnBoard card seqs = true ↔
        (seqs.get card.suit).hasSeven = true ∧
          (card.sortValue = (seqs.get card.suit).high + 1 ∨
            card.sortValue = (seqs.get card.suit).low - 1))) :=
  ⟨fun h7 => canPlayOnBoard_seven_iff card seqs hj h7,
   fun h7 => canPlayOnBoard_other_iff card seqs hj h7⟩

/-- A concrete eight of hearts. -/
def wCard8H : Card :=
  { id := 4, suit := .hearts, rank := .eight, value := 8, sortValue := 8, isJoker := false }

/-- A board whose hearts sequence is exactly the seven. -/
def wSeqs7H : Sequences :=
  { initialSequences with
    hearts := { suit := .hearts, low := 7, high := 7, hasSeven := true } }

/-- C4 witness: the eight of hearts is playable on a board holding exactly
the seven of hearts. -/
theorem canPlayOnBoard_nonwild_spec_witness :
    canPlayOnBoard wCard8H wSeqs7H = true :=
  ((canPlayOnBoard_nonwild_spec wCard8H wSeqs7H (by decide)).2 (by decide)).mpr
    (by decide)

lemma Sequences.get_set_same (s : Sequences) (suit : Suit) (b : BoardSequence) :
    (s.set suit b).get suit = b := by
  cases suit <;> rfl

lemma Sequences.get_set_ne (s : Sequences) (suit suit' : Suit) (b : BoardSequence)
    (h : suit' ≠ suit) : (s.set suit b).get suit' = s.get suit' := by
  cases suit <;> cases suit' <;> simp_all [Sequences.set, Sequences.get]

lemma Sequences.set_get_self (s : Sequences) (suit : Suit) :
    s.set suit (s.get suit) = s := by
  cases suit <;> rfl

/-- The two sequential bound updates shared by the single-card play paths:
`if (val === seq.high + 1) seq.high = val; if (val === seq.low - 1) seq.low = val;`. -/
def applyStandardExtension (seq : BoardSequence) (val : Int) : BoardSequence :=
  let seq1 := if val = seq.high + 1 then { seq with high := val } else seq
  if val = seq1.low - 1 then { seq1 with low := val } else seq1

/-- Under `low ≤ high`, an adjacent value moves exactly one of the two
bounds. -/
lemma applyStandardExtension_cases (seq : BoardSequence) (val : Int)
    (hlh : seq.low ≤ seq.high)
    (hv : val = seq.high + 1 ∨ val = seq.low - 1) :
    (val = seq.high + 1 ∧
      applyStandardExtension seq val = { seq with high := seq.high + 1 }) ∨
    (val = seq.low - 1 ∧
      applyStandardExtension seq val = { seq with low := seq.low - 1 }) := by
  obtain ⟨su, lo, hi, h7f⟩ := seq
  simp only at hlh hv ⊢
  by_cases hhigh : val = hi + 1
  · left
    subst hhigh
    have hnotlow : ¬ ((hi + 1 : Int) = lo - 1) := by omega
    simp [applyStandardExtension, hnotlow]
  · right
    have hlow : val = lo - 1 := hv.resolve_left hhigh
    subst hlow
    have hnothigh : ¬ ((lo - 1 : Int) = hi + 1) := by omega
    simp [applyStandardExtension, hnothigh]

/-- An out-of-range value leaves the sequence untouched. -/
lemma applyStandardExtension_id (seq : BoardSequence) (val : Int)
    (h1 : val ≠ seq.high + 1) (h2 : val ≠ seq.low - 1) :
    applyStandardExtension seq val = seq := by
  simp [applyStandardExtension, h1, h2]

/-- The slice of game state read and written by `confirmSingleJokerMove`
(the human player's hand, the board, and the declaration log). -/
structure SJState where
  boardSequences : Sequences
  hand : List Card
  jokerDeclarations : List JokerDeclaration
deriving DecidableEq, Repr, Inhabited

/-- src App `confirmSingleJokerMove`: reject a declared rank of seven,
otherwise extend the declared suit at whichever bound the declared sort
value is adjacent to, drop the joker from the hand and record the
declaration. -/
def confirmSingleJokerMove (st : SJState) (card : Card)
    (declaredSuit : Suit) (declaredRank : Rank) : SJState :=
  if declaredRank = .seven then st
  else
    let seq := st.boardSequences.get declaredSuit
    let val := getSortValue declaredRank
    { boardSequences := st.boardSequences.set declaredSuit (applyStandardExtension seq val)
      hand := st.hand.filter fun c => decide (c.id ≠ card.id)
      jokerDeclarations := st.jokerDeclarations ++
        [{ cardId := card.id, representedSuit := declaredSuit,
           representedRank := declaredRank }] }

/-- A real (non-wild) card of the given suit and rank — the "as if a real
card of that rank and suit were played" reading of declaration legality. -/
def mkRealCard (suit : Suit) (rank : Rank) : Card :=
  { id := 0, suit := suit, rank := rank, value := getPoints rank,
    sortValue := getSortValue rank, isJoker := false }

/-- A concrete pre-move state: hearts holds exactly its seven, the hand is
one joker, no declarations yet. -/
def wSJState0 : SJState :=
  { boardSequences := wSeqs7H, hand := [wJoker], jokerDeclarations := [] }

/-- C3 counterexample: declaring the joker as king of hearts is not a legal
extension point (the hearts run is 7–7), yet the move is applied rather than
rejected — the hand and the declaration log both change. -/
theorem confirmSingleJokerMove_counterexample :
    canPlayOnBoard (mkRealCard .hearts .king) wSJState0.boardSequences = false ∧
      (confirmSingleJokerMove wSJState0 wJoker .hearts .king).hand ≠ wSJState0.hand ∧
      (confirmSingleJokerMove wSJState0 wJoker .hearts .king).jokerDeclarations ≠
        wSJState0.jokerDeclarations := by
  decide

/-- C3 amended: `confirmSingleJokerMove` rejects (leaving all state
unchanged) only a declared rank of seven. Every other declared identity is
applied unconditionally: the joker leaves the hand and one declaration is
appended; the declared suit's bound moves only when the declared sort value
is adjacent to it — in particular a legal extension point extends exactly
one bound by one — while an unadjacent (illegal) identity leaves the board
untouched but is not rejected. -/
theorem confirmSingleJokerMove_behavior (st : SJState) (card : Card)
    (declaredSuit : Suit) (declaredRank : Rank) :
    (declaredRank = .seven →
      confirmSingleJokerMove st card declaredSuit declaredRank = st) ∧
    (declaredRank ≠ .seven →
      (confirmSingleJokerMove st card declaredSuit declaredRank).hand =
          st.hand.filter (fun c => decide (c.id ≠ card.id)) ∧
      (confirmSingleJokerMove st card declaredSuit declaredRank).jokerDeclarations =
          st.jokerDeclarations ++
            [{ cardId := card.id, representedSuit := declaredSuit,
               representedRank := declaredRank }] ∧
      (canPlayOnBoard (mkRealCard declaredSuit declaredRank) st.boardSequences = true →
        (st.boardSequences.get declaredSuit).low ≤
            (st.boardSequences.get declaredSuit).high →
        ((confirmSingleJokerMove st card declaredSuit declaredRank).boardSequences.get
              declaredSuit =
            { st.boardSequences.get declaredSuit with
                high := (st.boardSequences.get declaredSuit).high + 1 } ∨
          (confirmSingleJokerMove st card declaredSuit declaredRank).boardSequences.get
              declaredSuit =
            { st.boardSequences.get declaredSuit with
                low := (st.boardSequences.get declaredSuit).low - 1 })) ∧
      (getSortValue declaredRank ≠ (st.boardSequences.get declaredSuit).high + 1 →
        getSortValue declaredRank ≠ (st.boardSequences.get declaredSuit).low - 1 →
        (confirmSingleJokerMove st card declaredSuit declaredRank).boardSequences =
          st.boardSequences)) := by
  constructor
  · intro h7
    simp [confirmSingleJokerMove, h7]
  · intro h7
    refine ⟨by simp [confirmSingleJokerMove, h7], by simp [confirmSingleJokerMove, h7],
      ?_, ?_⟩
    · intro hleg hlh
      have hadj :
          getSortValue declaredRank = (st.boardSequences.get declaredSuit).high + 1 ∨
            getSortValue declaredRank = (st.boardSequences.get declaredSuit).low - 1 := by
        have := (canPlayOnBoard_other_iff (mkRealCard declaredSuit declaredRank)
          st.boardSequences rfl h7).mp hleg
        exact this.2
      rcases applyStandardExtension_cases (st.boardSequences.get declaredSuit)
          (getSortValue declaredRank) hlh hadj with ⟨hv, he⟩ | ⟨hv, he⟩
      · left
        simp [confirmSingleJokerMove, h7, Sequences.get_set_same, he]
      · right
        simp [confirmSingleJokerMove, h7, Sequences.get_set_same, he]
    · intro h1 h2
      simp [confirmSingleJokerMove, h7,
        applyStandardExtension_id (st.boardSequences.get declaredSuit)
          (getSortValue declaredRank) h1 h2,
        Sequences.set_get_self]

/-- C3 amended witness: declaring the joker as eight of hearts (a legal
extension point) appends exactly that declaration. -/
theorem confirmSingleJokerMove_behavior_witness :
    (confirmSingleJokerMove wSJState0 wJoker .hearts .eight).jokerDeclarations =
      wSJState0.jokerDeclarations ++
        [{ cardId := wJoker.id, representedSuit := .hearts,
           representedRank := .eight }] :=
  ((confirmSingleJokerMove_behavior wSJState0 wJoker .hearts .eight).2
    (by decide)).2.1

/-- TypeScript array indexing `l[i]` with a possibly negative `number`
index: out-of-range yields nothing. -/
def listAtInt {α : Type} (l : List α) (i : Int) : Option α :=
  if 0 ≤ i then l.get? i.toNat else none

/-- The bot's wild-placement target for one suit (src `botTurn`):
`RANKS[seq.high]` while the high end has room, else `RANKS[seq.low - 2]`
while the low end has room. -/
def botJokerTargetRank (seq : BoardSequence) : Option Rank :=
  if seq.high < 13 then listAtInt RANKS seq.high
  else if seq.low > 1 then listAtInt RANKS (seq.low - 2)
  else none

/-- The bot's wild bound update (src `botTurn`):
`if (getSortValue(targetRank) > seq.high) seq.high = ... else seq.low = ...`. -/
def applyBotJokerExtension (seq : BoardSequence) (val : Int) : BoardSequence :=
  if val > seq.high then { seq with high := val } else { seq with low := val }

/-- One accepted extension: the seven flag is untouched and exactly one
bound moved outward by one, so the span grew by one. -/
def extendedByOne (seq seq' : BoardSequence) : Prop :=
  seq'.hasSeven = seq.hasSeven ∧
    ((seq'.high = seq.high + 1 ∧ seq'.low = seq.low) ∨
      (seq'.low = seq.low - 1 ∧ seq'.high = seq.high)) ∧
    seq'.high - seq'.low = seq.high - seq.low + 1

lemma ranks_get?_sortValue :
    ∀ n : Nat, n < 13 → ∀ r : Rank, RANKS.get? n = some r →
      getSortValue r = (n : Int) + 1 := by
  decide

lemma listAtInt_RANKS_sortValue (i : Int) (r : Rank) (h0 : 0 ≤ i) (h13 : i < 13)
    (h : listAtInt RANKS i = some r) : getSortValue r = i + 1 := by
  unfold listAtInt at h
  rw [if_pos h0] at h
  have hn : i.toNat < 13 := by omega
  have := ranks_get?_sortValue i.toNat hn r h
  rwa [Int.toNat_of_nonneg h0] at this

/-- C5. On a suit whose seven is down and whose bounds satisfy
`low ≤ 7 ≤ high`, every accepted single-card extension — the shared
human/bot standard-card path, and the bot's wild placement — keeps
`low ≤ 7 ≤ high`, moves exactly one bound, and grows the span by one. -/
theorem accepted_extension_invariant (seqs : Sequences) (card : Card)
    (hj : card.isJoker = false)
    (h7 : (seqs.get card.suit).hasSeven = true)
    (hl : (seqs.get card.suit).low ≤ 7)
    (hh : 7 ≤ (seqs.get card.suit).high) :
    (canPlayOnBoard card seqs = true →
      extendedByOne (seqs.get card.suit)
        (applyStandardExtension (seqs.get card.suit) card.sortValue) ∧
      (applyStandardExtension (seqs.get card.suit) card.sortValue).low ≤ 7 ∧
      7 ≤ (applyStandardExtension (seqs.get card.suit) card.sortValue).high) ∧
    (∀ r : Rank, botJokerTargetRank (seqs.get card.suit) = some r → r ≠ .seven →
      extendedByOne (seqs.get card.suit)
        (applyBotJokerExtension (seqs.get card.suit) (getSortValue r)) ∧
      (applyBotJokerExtension (seqs.get card.suit) (getSortValue r)).low ≤ 7 ∧
      7 ≤ (applyBotJokerExtension (seqs.get card.suit) (getSortValue r)).high) := by
  constructor
  · intro hcp
    have hne7 : card.rank ≠ .seven := by
      intro he
      have := (canPlayOnBoard_seven_iff card seqs hj he).mp hcp
      rw [h7] at this
      cases this
    have hadj := ((canPlayOnBoard_other_iff card seqs hj hne7).mp hcp).2
    have hlh : (seqs.get card.suit).low ≤ (seqs.get card.suit).high := le_trans hl hh
    rcases applyStandardExtension_cases _ card.sortValue hlh hadj with ⟨_, he⟩ | ⟨_, he⟩
    · rw [he]
      exact ⟨⟨rfl, Or.inl ⟨rfl, rfl⟩, by dsimp; ring⟩, hl, by dsimp; omega⟩
    · rw [he]
      exact ⟨⟨rfl, Or.inr ⟨rfl, rfl⟩, by dsimp; ring⟩, by dsimp; omega, hh⟩
  · intro r hr hrne
    unfold botJokerTargetRank at hr
    by_cases hhi : (seqs.get card.suit).high < 13
    · rw [if_pos hhi] at hr
      have hval : getSortValue r = (seqs.get card.suit).high + 1 :=
        listAtInt_RANKS_sortValue _ r (by omega) hhi hr
      have hgt : getSortValue r > (seqs.get card.suit).high := by omega
      unfold applyBotJokerExtension
      rw [if_pos hgt]
      exact ⟨⟨rfl, Or.inl ⟨by dsimp; omega, rfl⟩, by dsimp; omega⟩, hl, by dsimp; omega⟩
    · rw [if_neg hhi] at hr
      by_cases hlo : (seqs.get card.suit).low > 1
      · rw [if_pos hlo] at hr
        have hval : getSortValue r = (seqs.get card.suit).low - 1 := by
          have := listAtInt_RANKS_sortValue _ r (by omega) (by omega) hr
          omega
        have hngt : ¬ (getSortValue r > (seqs.get card.suit).high) := by omega
        unfold applyBotJokerExtension
        rw [if_neg hngt]
        exact ⟨⟨rfl, Or.inr ⟨by dsimp; omega, rfl⟩, by dsimp; omega⟩, by dsimp; omega, hh⟩
      · rw [if_neg hlo] at hr
        cases hr

/-- C5 witness: playing the eight of hearts onto the 7–7 hearts run keeps
the invariant and grows the span by one. -/
theorem accepted_extension_invariant_witness :
    extendedByOne (wSeqs7H.get wCard8H.suit)
      (applyStandardExtension (wSeqs7H.get wCard8H.suit) wCard8H.sortValue) ∧
    (applyStandardExtension (wSeqs7H.get wCard8H.suit) wCard8H.sortValue).low ≤ 7 ∧
    7 ≤ (applyStandardExtension (wSeqs7H.get wCard8H.suit) wCard8H.sortValue).high :=
  (accepted_extension_invariant wSeqs7H wCard8H (by decide) (by decide)
    (by decide) (by decide)).1 (by decide)

/-- The slice of game state read and written by `doPong`: the claiming
player's hand and melds and the discard pile. -/
structure PongState where
  hand : List Card
  melds : List (List Card)
  discardPile : List Card
deriving DecidableEq, Repr, Inhabited

/-- What `doPong` decided: reject the claim, hand off to the joker
declaration modal, or complete a clean (joker-free) pong. -/
inductive PongOutcome where
  | rejected
  | deferredDeclaration (naturalRank : Rank) (jokersCount : Nat)
  | cleanPong
deriving DecidableEq, Repr, Inhabited

/-- The two hand cards `doPong` selects to accompany the discard: two
naturals if available, else one natural plus a joker, else two jokers. -/
def pongCardsToUse (hand : List Card) (discard : Card) : List Card :=
  let naturalMatches := hand.filter fun c => decide (c.rank = discard.rank) && !c.isJoker
  let jokers := hand.filter (·.isJoker)
  if naturalMatches.length ≥ 2 then naturalMatches.take 2
  else if naturalMatches.length = 1 then naturalMatches ++ jokers.take 1
  else jokers.take 2

/-- src App `doPong`: pick the two accompanying cards, refuse any claim on
a discarded seven that involves a joker, defer to the declaration modal
when a joker is involved, otherwise meld the three cards, take the top of
the discard pile, and clear the claim. -/
def doPong (st : PongState) (discard : Card) : PongState × PongOutcome :=
  let cardsToUse := pongCardsToUse st.hand discard
  let jokersInvolved := cardsToUse.filter (·.isJoker)
  let totalCards := cardsToUse ++ [discard]
  if discard.rank = .seven ∧ jokersInvolved.length > 0 then
    (st, .rejected)
  else if jokersInvolved.length > 0 then
    (st, .deferredDeclaration discard.rank jokersInvolved.length)
  else
    ({ hand := st.hand.filter fun c => decide (c ∉ cardsToUse)
       melds := st.melds ++ [totalCards]
       discardPile := st.discardPile.drop 1 }, .cleanPong)

/-- C6. A pong on a discarded seven that would use a wild substitute is
always rejected: the hand, melds, and discard pile are all unchanged. -/
theorem doPong_seven_wild_rejected (st : PongState) (discard : Card)
    (h7 : discard.rank = .seven)
    (hw : ((pongCardsToUse st.hand discard).filter (·.isJoker)).length > 0) :
    doPong st discard = (st, .rejected) := by
  unfold doPong
  rw [if_pos ⟨h7, hw⟩]

/-- A concrete natural seven of hearts. -/
def wCard7H : Card :=
  { id := 5, suit := .hearts, rank := .seven, value := 15, sortValue := 7, isJoker := false }

/-- A concrete seven of spades sitting on top of the discard pile. -/
def wCard7S : Card :=
  { id := 6, suit := .spades, rank := .seven, value := 15, sortValue := 7, isJoker := false }

/-- C6 witness: claiming a discarded seven with one natural seven plus a
joker is rejected outright. -/
theorem doPong_seven_wild_rejected_witness :
    doPong { hand := [wCard7H, wJoker], melds := [], discardPile := [wCard7S] } wCard7S =
      ({ hand := [wCard7H, wJoker], melds := [], discardPile := [wCard7S] }, .rejected) :=
  doPong_seven_wild_rejected _ wCard7S (by decide) (by decide)

/-- The bot's working state inside its greedy play loop (src `botTurn`):
its hand and melds plus the shared board and declaration log. -/
structure BotState where
  hand : List Card
  melds : List (List Card)
  sequences : Sequences
  decls : List JokerDeclaration
deriving DecidableEq, Repr, Inhabited

/-- All natural cards of rank `r` in the hand, in hand order — the
`rankCounts[r]` group of src `botTurn`. -/
def meldGroup (hand : List Card) (r : Rank) : List Card :=
  hand.filter fun c => !c.isJoker && decide (c.rank = r)

/-- The first rank (in order of first occurrence among the hand's naturals,
which is the object-key order of `rankCounts`) holding three or more
naturals. -/
def botMeldRank (hand : List Card) : Option Rank :=
  (hand.find? fun c => !c.isJoker && decide ((meldGroup hand c.rank).length ≥ 3)).map
    (·.rank)

/-- Step 1 of the bot loop: meld the first rank with three naturals,
removing those three cards from the hand. -/
def botTryMeld (st : BotState) : Option BotState :=
  match botMeldRank st.hand with
  | none => none
  | some r =>
    let meldCards := (meldGroup st.hand r).take 3
    let ids := meldCards.map (·.id)
    some { st with
      hand := st.hand.filter fun c => decide (c.id ∉ ids)
      melds := st.melds ++ [meldCards] }

/-- The bot's wild placement scan over the suits whose seven is down, in
suit order: play on the first suit offering a non-seven target rank. -/
def botJokerPlaceAux (seqs : Sequences) (cardId : Nat) :
    List Suit → Option (Sequences × JokerDeclaration)
  | [] => none
  | suit :: rest =>
    let seq := seqs.get suit
    match botJokerTargetRank seq with
    | some r =>
      if r ≠ .seven then
        some (seqs.set suit (applyBotJokerExtension seq (getSortValue r)),
          { cardId := cardId, representedSuit := suit, representedRank := r })
      else botJokerPlaceAux seqs cardId rest
    | none => botJokerPlaceAux seqs cardId rest

/-- Wild placement over the valid suits (src `validSuits`). -/
def botJokerPlace (seqs : Sequences) (cardId : Nat) :
    Option (Sequences × JokerDeclaration) :=
  botJokerPlaceAux seqs cardId (SUITS.filter fun s => (seqs.get s).hasSeven)

/-- Step 2 of the bot loop: scan the hand left to right and play the first
card that fits — a fresh seven, a standard extension, or a placeable wild.
Returns the remaining hand and the updated board and declaration log. -/
def botTryPlayCard (seqs : Sequences) (decls : List JokerDeclaration) :
    List Card → Option (List Card × Sequences × List JokerDeclaration)
  | [] => none
  | c :: rest =>
    if c.isJoker = false then
      if c.rank = .seven ∧ (seqs.get c.suit).hasSeven = false then
        some (rest, seqs.set c.suit { seqs.get c.suit with hasSeven := true }, decls)
      else if canPlayOnBoard c seqs then
        some (rest, seqs.set c.suit
          (applyStandardExtension (seqs.get c.suit) c.sortValue), decls)
      else
        (botTryPlayCard seqs decls rest).map fun hsd => (c :: hsd.1, hsd.2)
    else
      match botJokerPlace seqs c.id with
      | some sd => some (rest, sd.1, decls ++ [sd.2])
      | none => (botTryPlayCard seqs decls rest).map fun hsd => (c :: hsd.1, hsd.2)

/-- One iteration of the bot's `while(played)` loop: meld first, else play
a single card; `none` when no branch applies. -/
def botLoopStep (st : BotState) : Option BotState :=
  match botTryMeld st with
  | some st' => some st'
  | none =>
    match botTryPlayCard st.sequences st.decls st.hand with
    | some hsd => some { st with hand := hsd.1, sequences := hsd.2.1, decls := hsd.2.2 }
    | none => none

lemma botTryMeld_hand_lt (st st' : BotState) (h : botTryMeld st = some st') :
    st'.hand.length < st.hand.length := by
  unfold botTryMeld at h
  cases hm : botMeldRank st.hand with
  | none => rw [hm] at h; cases h
  | some r =>
    rw [hm] at h
    injection h with h
    subst h
    simp only
    rw [List.length_filter_lt_length_iff_exists]
    unfold botMeldRank at hm
    cases hf : st.hand.find? fun c =>
        !c.isJoker && decide ((meldGroup st.hand c.rank).length ≥ 3) with
    | none => rw [hf] at hm; cases hm
    | some c =>
      rw [hf] at hm
      injection hm with hm
      have hm' : c.rank = r := hm
      have hcmem : c ∈ st.hand := List.mem_of_find?_eq_some hf
      have hcpred := List.find?_some hf
      rw [Bool.and_eq_true, decide_eq_true_eq] at hcpred
      have htake : (meldGroup st.hand r).take 3 ≠ [] := by
        have hlen : ((meldGroup st.hand r).take 3).length = 3 := by
          rw [List.length_take]
          have h3 := hcpred.2
          rw [hm'] at h3
          omega
        intro he
        rw [he] at hlen
        cases hlen
      obtain ⟨m, hmmem⟩ := List.exists_mem_of_ne_nil _ htake
      have hmhand : m ∈ st.hand := by
        have h1 : m ∈ meldGroup st.hand r := List.mem_of_mem_take hmmem
        unfold meldGroup at h1
        exact (List.mem_filter.mp h1).1
      refine ⟨m, hmhand, ?_⟩
      have hmid : m.id ∈ ((meldGroup st.hand r).take 3).map (·.id) :=
        List.mem_map_of_mem _ hmmem
      simp only [decide_eq_true_eq]
      exact fun hno => hno hmid

lemma botTryPlayCard_hand_lt (seqs : Sequences) (decls : List JokerDeclaration) :
    ∀ (l : List Card) (hsd : List Card × Sequences × List JokerDeclaration),
      botTryPlayCard seqs decls l = some hsd → hsd.1.length < l.length := by
  intro l
  induction l with
  | nil => intro hsd hx; cases hx
  | cons c rest ih =>
    intro hsd hx
    unfold botTryPlayCard at hx
    by_cases hj : c.isJoker = false
    · rw [if_pos hj] at hx
      by_cases h7 : c.rank = .seven ∧ (seqs.get c.suit).hasSeven = false
      · rw [if_pos h7] at hx
        injection hx with hx
        subst hx
        simp
      · rw [if_neg h7] at hx
        by_cases hcp : canPlayOnBoard c seqs = true
        · rw [if_pos hcp] at hx
          injection hx with hx
          subst hx
          simp
        · rw [if_neg hcp] at hx
          cases hrec : botTryPlayCard seqs decls rest with
          | none => rw [hrec] at hx; cases hx
          | some hsd0 =>
            rw [hrec] at hx
            injection hx with hx
            subst hx
            have := ih hsd0 hrec
            simpa using Nat.succ_lt_succ this
    · rw [if_neg hj] at hx
      cases hjp : botJokerPlace seqs c.id with
      | some sd =>
        rw [hjp] at hx
        injection hx with hx
        subst hx
        simp
      | none =>
        rw [hjp] at hx
        cases hrec : botTryPlayCard seqs decls rest with
        | none => rw [hrec] at hx; cases hx
        | some hsd0 =>
          rw [hrec] at hx
          injection hx with hx
          subst hx
          have := ih hsd0 hrec
          simpa using Nat.succ_lt_succ this

lemma botLoopStep_hand_lt (st st' : BotState) (h : botLoopStep st = some st') :
    st'.hand.length < st.hand.length := by
  unfold botLoopStep at h
  cases hm : botTryMeld st with
  | some st'' =>
    rw [hm] at h
    injection h with h
    exact h ▸ botTryMeld_hand_lt st st'' hm
  | none =>
    rw [hm] at h
    cases hp : botTryPlayCard st.sequences st.decls st.hand with
    | none => rw [hp] at h; cases h
    | some hsd =>
      rw [hp] at h
      injection h with h
      subst h
      exact botTryPlayCard_hand_lt st.sequences st.decls st.hand hsd hp

/-- The bot's greedy loop: iterate `botLoopStep` until no play applies,
returning the final state and the number of plays made (`movesMade`). -/
def botLoop (st : BotState) : BotState × Nat :=
  match hstep : botLoopStep st with
  | none => (st, 0)
  | some st' =>
    have _hlt : st'.hand.length < st.hand.length := botLoopStep_hand_lt st st' hstep
    ((botLoop st').1, (botLoop st').2 + 1)
termination_by st.hand.length

lemma botLoop_of_step_none (st : BotState) (h : botLoopStep st = none) :
    botLoop st = (st, 0) := by
  rw [botLoop]
  split
  next => rfl
  next s hstep => rw [h] at hstep; cases hstep

lemma botLoop_of_step_some (st st' : BotState) (h : botLoopStep st = some st') :
    botLoop st = ((botLoop st').1, (botLoop st').2 + 1) := by
  rw [botLoop]
  split
  next hstep => rw [h] at hstep; cases hstep
  next s hstep =>
    rw [h] at hstep
    injection hstep with he
    subst he
    rfl

/-- C9. The bot's greedy play loop terminates: each iteration that plays
strictly shrinks the hand, the number of plays is bounded by the starting
hand size, and the loop only stops when no further play applies. -/
theorem botLoop_terminates (st : BotState) :
    (∀ st', botLoopStep st = some st' → st'.hand.length < st.hand.length) ∧
    (botLoop st).2 ≤ st.hand.length ∧
    botLoopStep (botLoop st).1 = none := by
  refine ⟨fun st' h => botLoopStep_hand_lt st st' h, ?_⟩
  suffices hmain : ∀ n (s : BotState), s.hand.length ≤ n →
      (botLoop s).2 ≤ s.hand.length ∧ botLoopStep (botLoop s).1 = none from
    hmain st.hand.length st le_rfl
  intro n
  induction n with
  | zero =>
    intro s hs
    cases hstep : botLoopStep s with
    | none => rw [botLoop_of_step_none s hstep]; exact ⟨Nat.zero_le _, hstep⟩
    | some s' =>
      have := botLoopStep_hand_lt s s' hstep
      omega
  | succ n ih =>
    intro s hs
    cases hstep : botLoopStep s with
    | none => rw [botLoop_of_step_none s hstep]; exact ⟨Nat.zero_le _, hstep⟩
    | some s' =>
      have hlt := botLoopStep_hand_lt s s' hstep
      have hih := ih s' (by omega)
      rw [botLoop_of_step_some s s' hstep]
      refine ⟨?_, hih.2⟩
      have h1 := hih.1
      simp only
      omega

/-- A concrete one-card bot state: a seven of hearts on the fresh board. -/
def wBotState0 : BotState :=
  { hand := [wCard7H], melds := [], sequences := initialSequences, decls := [] }

/-- C9 witness: from a one-card hand the loop makes at most one play and
stops with no play applicable. -/
theorem botLoop_terminates_witness :
    (botLoop wBotState0).2 ≤ wBotState0.hand.length ∧
      botLoopStep (botLoop wBotState0).1 = none :=
  ⟨(botLoop_terminates wBotState0).2.1, (botLoop_terminates wBotState0).2.2⟩

/-- The stable hand sort by sort value
(`hand.sort((a, b) => a.sortValue - b.sortValue)`). -/
def sortHand (hand : List Card) : List Card :=
  hand.insertionSort fun a b => a.sortValue ≤ b.sortValue

/-- The discard pick of src `botTurn`: index of the first card of strictly
greatest value (`maxVal` starts at −1, ties keep the earlier index). -/
def maxValIndexAux : List Card → Int → Nat → Nat → Nat
  | [], _, _, best => best
  | c :: rest, maxVal, i, best =>
    if c.value > maxVal then maxValIndexAux rest c.value (i + 1) i
    else maxValIndexAux rest maxVal (i + 1) best

/-- Index of the card src `botTurn` discards. -/
def maxValIndex (hand : List Card) : Nat :=
  maxValIndexAux hand (-1) 0 0

/-- How a bot turn ends: an immediate knock with the scored players, or a
draw-and-discard. -/
inductive BotOutcome where
  | knock (updatedPlayers : List Player)
  | discard (discarded : Card) (newHand : List Card) (deck : List Card)
deriving DecidableEq, Repr, Inhabited

/-- src App `botTurn` (non-tutorial): run the greedy loop, knock if the
remaining hand is worth at most 5 points, otherwise draw (skipping an empty
deck), sort, and discard the highest-value card. -/
def botTurn (players : List Player) (botIdx : Nat) (deck : List Card)
    (seqs : Sequences) (decls : List JokerDeclaration) : BotOutcome :=
  let bot := players.getD botIdx default
  let loopRes := (botLoop
    { hand := bot.hand, melds := bot.melds, sequences := seqs, decls := decls }).1
  let currentPoints := calculateHandPoints loopRes.hand
  if currentPoints ≤ 5 then
    let tempPlayers := mapIdxFrom
      (fun i p => if i = botIdx then
        { p with hand := loopRes.hand, melds := loopRes.melds } else p) 0 players
    .knock (applyFinalScores tempPlayers botIdx loopRes.decls)
  else
    let drawn : List Card × List Card :=
      match deck with
      | [] => (loopRes.hand, [])
      | c :: rest => (sortHand (loopRes.hand ++ [c]), rest)
    let di := maxValIndex drawn.1
    .discard (drawn.1.getD di default) (drawn.1.eraseIdx di) drawn.2

/-- src App `handleKnock` (non-tutorial): refuse a human knock above 5
points, otherwise score the round with the human as knocker. `none` is the
rejection — no round end and no score change. -/
def handleKnock (players : List Player)
    (jokerDeclarations : List JokerDeclaration) : Option (List Player) :=
  match players with
  | [] => none
  | p :: rest =>
    if calculateHandPoints p.hand > 5 then none
    else some (applyFinalScores (p :: rest) 0 jokerDeclarations)

/-- C7. Outside tutorial mode a knock is legal only at 5 or fewer
unpenalized hand points: a human knock above 5 is rejected with no state
change, at most 5 it scores the round, and the bot knocks exactly when its
post-play (post-loop) hand is worth at most 5. -/
theorem knock_eligibility (p : Player) (rest : List Player)
    (decls : List JokerDeclaration) (players : List Player) (botIdx : Nat)
    (deck : List Card) (seqs : Sequences) (botDecls : List JokerDeclaration) :
    (calculateHandPoints p.hand > 5 → handleKnock (p :: rest) decls = none) ∧
    (calculateHandPoints p.hand ≤ 5 →
      handleKnock (p :: rest) decls =
        some (applyFinalScores (p :: rest) 0 decls)) ∧
    ((∃ ps, botTurn players botIdx deck seqs botDecls = .knock ps) ↔
      calculateHandPoints
        (botLoop
          { hand := (players.getD botIdx default).hand
            melds := (players.getD botIdx default).melds
            sequences := seqs, decls := botDecls }).1.hand ≤ 5) := by
  refine ⟨fun hgt => ?_, fun hle => ?_, ?_⟩
  · simp only [handleKnock]
    rw [if_pos hgt]
  · simp only [handleKnock]
    rw [if_neg (by omega)]
  · unfold botTurn
    by_cases hpts : calculateHandPoints
        (botLoop
          { hand := (players.getD botIdx default).hand
            melds := (players.getD botIdx default).melds
            sequences := seqs, decls := botDecls }).1.hand ≤ 5
    · rw [if_pos hpts]
      exact ⟨fun _ => hpts, fun _ => ⟨_, rfl⟩⟩
    · rw [if_neg hpts]
      constructor
      · rintro ⟨ps, hps⟩
        cases hps
      · intro h
        exact absurd h hpts

/-- A concrete player holding a 10-point king. -/
def wPlayerKing : Player := { id := 0, hand := [wCardKing], score := 0, melds := [] }

/-- C7 witness: a 10-point human knock attempt is rejected. -/
theorem knock_eligibility_witness :
    handleKnock [wPlayerKing] [] = none :=
  (knock_eligibility wPlayerKing [] [] [] 0 [] initialSequences []).1 (by decide)

/-- src `constants.ts` `MAX_SCORE`. -/
def MAX_SCORE : Int := 250

/-- The freshly dealt state produced when the game continues to another
round. -/
structure NewRoundState where
  players : List Player
  currentPlayerIndex : Nat
  deck : List Card
  boardSequences : Sequences
  round : Nat
  discardPile : List Card
  jokerDeclarations : List JokerDeclaration
deriving DecidableEq, Repr, Inhabited

/-- The two possible results of src `startNextRound`. -/
inductive RoundTransition where
  | gameOver (winner : Player)
  | nextRound (st : NewRoundState)
deriving DecidableEq, Repr, Inhabited

/-- `updatedPlayers.reduce((prev, curr) => prev.score < curr.score ? prev : curr)`:
keep the accumulator only while it is strictly lower. -/
def reduceWinner : List Player → Option Player
  | [] => none
  | p :: ps =>
    some (ps.foldl (fun prev curr => if prev.score < curr.score then prev else curr) p)

/-- Sequential 7-card deal from the front of the fresh deck, sorting each
hand and clearing melds (src `startNextRound`). -/
def dealHands : List Player → List Card → List Player × List Card
  | [], deck => ([], deck)
  | p :: ps, deck =>
    let rec' := dealHands ps (deck.drop 7)
    ({ p with hand := sortHand (deck.take 7), melds := [] } :: rec'.1, rec'.2)

/-- src App `startNextRound` (non-tutorial): end the game when any score
reached the ceiling, with the reduce-picked winner; otherwise rebuild deck,
hands, and board and clear the declaration log. -/
def startNextRound (updatedPlayers : List Player) (round : Nat)
    (newDeck : List Card) : RoundTransition :=
  if updatedPlayers.any (fun p => decide (p.score ≥ MAX_SCORE)) then
    .gameOver ((reduceWinner updatedPlayers).getD default)
  else
    let dealt := dealHands updatedPlayers newDeck
    .nextRound
      { players := dealt.1
        currentPlayerIndex := round % updatedPlayers.length
        deck := dealt.2
        boardSequences := initialSequences
        round := round + 1
        discardPile := []
        jokerDeclarations := [] }

/-- A concrete player with the ceiling score, index 0. -/
def wP250a : Player := { id := 0, hand := [], score := 250, melds := [] }

/-- A concrete player with the ceiling score, index 1. -/
def wP250b : Player := { id := 1, hand := [], score := 250, melds := [] }

/-- C8 counterexample: with two players tied at the ceiling the game ends,
but the winner is the player at index 1, not the lowest index — the reduce
keeps the later player on score ties. -/
theorem startNextRound_tiebreak_counterexample :
    startNextRound [wP250a, wP250b] 1 [] = .gameOver wP250b ∧ wP250b ≠ wP250a := by
  decide

/-- The running minimum of the players' scores seeded at `m`. -/
def minScoreFrom (m : Int) (l : List Player) : Int :=
  l.foldl (fun acc q => min acc q.score) m

/-- The minimum score of a nonempty player list (0 for the empty list). -/
def minScoreOf : List Player → Int
  | [] => 0
  | p :: rest => minScoreFrom p.score rest

lemma minScoreFrom_le_seed : ∀ (l : List Player) (m : Int), minScoreFrom m l ≤ m := by
  intro l
  induction l with
  | nil => intro m; exact le_rfl
  | cons c t ih =>
    intro m
    calc minScoreFrom m (c :: t) = minScoreFrom (min m c.score) t := rfl
    _ ≤ min m c.score := ih _
    _ ≤ m := min_le_left _ _

lemma minScoreFrom_le_mem :
    ∀ (l : List Player) (m : Int) (q : Player), q ∈ l → minScoreFrom m l ≤ q.score := by
  intro l
  induction l with
  | nil => intro m q hq; cases hq
  | cons c t ih =>
    intro m q hq
    rcases List.mem_cons.mp hq with rfl | hq'
    · calc minScoreFrom m (q :: t) = minScoreFrom (min m q.score) t := rfl
      _ ≤ min m q.score := minScoreFrom_le_seed _ _
      _ ≤ q.score := min_le_right _ _
    · exact ih (min m c.score) q hq'

/-- The reduce keeps the last player attaining the running minimum: its
result is a member, its score is the minimum, and it is the last
minimum-score element of the list. -/
lemma foldl_winner_lastMin :
    ∀ (l : List Player) (p : Player),
      (l.foldl (fun prev curr => if prev.score < curr.score then prev else curr) p) ∈
          p :: l ∧
      (l.foldl (fun prev curr => if prev.score < curr.score then prev else curr)
            p).score = minScoreFrom p.score l ∧
      ((p :: l).filter
            (fun q => decide (q.score = minScoreFrom p.score l))).getLast? =
        some (l.foldl (fun prev curr => if prev.score < curr.score then prev else curr) p) := by
  intro l
  induction l with
  | nil =>
    intro p
    refine ⟨List.mem_singleton_self p, rfl, ?_⟩
    simp [minScoreFrom]
  | cons c t ih =>
    intro p
    by_cases hc : p.score < c.score
    · obtain ⟨hmem, hscore, hlast⟩ := ih p
      have hfold : (c :: t).foldl
          (fun prev curr => if prev.score < curr.score then prev else curr) p =
          t.foldl (fun prev curr => if prev.score < curr.score then prev else curr) p := by
        show t.foldl _ (if p.score < c.score then p else c) = _
        rw [if_pos hc]
      have hmin : minScoreFrom p.score (c :: t) = minScoreFrom p.score t := by
        show minScoreFrom (min p.score c.score) t = minScoreFrom p.score t
        congr 1
        omega
      rw [hfold, hmin]
      refine ⟨?_, hscore, ?_⟩
      · rcases List.mem_cons.mp hmem with he | ht
        · rw [he]
          exact List.mem_cons_self _ _
        · exact List.mem_cons_of_mem _ (List.mem_cons_of_mem _ ht)
      · have hcfalse : ¬ ((fun q =>
            decide (q.score = minScoreFrom p.score t)) c = true) := by
          simp only [decide_eq_true_eq]
          intro he
          have h1 := minScoreFrom_le_seed t p.score
          omega
        have hdrop : (c :: t).filter
            (fun q => decide (q.score = minScoreFrom p.score t)) =
            t.filter (fun q => decide (q.score = minScoreFrom p.score t)) :=
          List.filter_cons_of_neg hcfalse
        have hsame : (p :: c :: t).filter
            (fun q => decide (q.score = minScoreFrom p.score t)) =
            (p :: t).filter (fun q => decide (q.score = minScoreFrom p.score t)) := by
          by_cases hpp : (fun q =>
              decide (q.score = minScoreFrom p.score t)) p = true
          · rw [@List.filter_cons_of_pos Player
                (fun q => decide (q.score = minScoreFrom p.score t)) p (c :: t) hpp,
              @List.filter_cons_of_pos Player
                (fun q => decide (q.score = minScoreFrom p.score t)) p t hpp, hdrop]
          · rw [@List.filter_cons_of_neg Player
                (fun q => decide (q.score = minScoreFrom p.score t)) p (c :: t) hpp,
              @List.filter_cons_of_neg Player
                (fun q => decide (q.score = minScoreFrom p.score t)) p t hpp, hdrop]
        rw [hsame]
        exact hlast
    · obtain ⟨hmem, hscore, hlast⟩ := ih c
      have hfold : (c :: t).foldl
          (fun prev curr => if prev.score < curr.score then prev else curr) p =
          t.foldl (fun prev curr => if prev.score < curr.score then prev else curr) c := by
        show t.foldl _ (if p.score < c.score then p else c) = _
        rw [if_neg hc]
      have hmin : minScoreFrom p.score (c :: t) = minScoreFrom c.score t := by
        show minScoreFrom (min p.score c.score) t = minScoreFrom c.score t
        congr 1
        omega
      rw [hfold, hmin]
      refine ⟨List.mem_cons_of_mem _ hmem, hscore, ?_⟩
      by_cases hp : (fun q => decide (q.score = minScoreFrom c.score t)) p = true
      · have hne2 : (c :: t).filter
            (fun q => decide (q.score = minScoreFrom c.score t)) ≠ [] := by
          intro he
          rw [he] at hlast
          cases hlast
        obtain ⟨b, l', hb⟩ := List.exists_cons_of_ne_nil hne2
        rw [@List.filter_cons_of_pos Player
            (fun q => decide (q.score = minScoreFrom c.score t)) p (c :: t) hp,
          hb, List.getLast?_cons_cons, ← hb]
        exact hlast
      · rw [@List.filter_cons_of_neg Player
            (fun q => decide (q.score = minScoreFrom c.score t)) p (c :: t) hp]
        exact hlast

/-- C8 amended: the game ends exactly when some player's cumulative score
reached `MAX_SCORE`; the winner is then a player of minimal cumulative
score, but ties are broken in favor of the LAST such player (highest
index), not the lowest. -/
theorem startNextRound_gameover_spec (players : List Player) (round : Nat)
    (deck : List Card) (hne : players ≠ []) :
    ((∃ w, startNextRound players round deck = .gameOver w) ↔
      ∃ p ∈ players, MAX_SCORE ≤ p.score) ∧
    (∀ w, startNextRound players round deck = .gameOver w →
      w ∈ players ∧ (∀ p ∈ players, w.score ≤ p.score) ∧
      (players.filter (fun q => decide (q.score = minScoreOf players))).getLast? =
        some w) := by
  obtain ⟨p, rest, rfl⟩ := List.exists_cons_of_ne_nil hne
  have hany : ((p :: rest).any (fun q => decide (q.score ≥ MAX_SCORE)) = true) ↔
      ∃ q ∈ p :: rest, MAX_SCORE ≤ q.score := by
    rw [List.any_eq_true]
    constructor
    · rintro ⟨q, hq, hd⟩
      exact ⟨q, hq, of_decide_eq_true hd⟩
    · rintro ⟨q, hq, hd⟩
      exact ⟨q, hq, decide_eq_true hd⟩
  by_cases hcase : (p :: rest).any (fun q => decide (q.score ≥ MAX_SCORE)) = true
  · constructor
    · constructor
      · intro _
        exact hany.mp hcase
      · intro _
        exact ⟨_, by unfold startNextRound; rw [if_pos hcase]⟩
    · intro w hw
      unfold startNextRound at hw
      rw [if_pos hcase] at hw
      injection hw with hw
      obtain ⟨hmem, hscore, hlast⟩ := foldl_winner_lastMin rest p
      have hwin : w = rest.foldl
          (fun prev curr => if prev.score < curr.score then prev else curr) p := by
        rw [← hw]
        rfl
      subst hwin
      refine ⟨hmem, ?_, ?_⟩
      · intro q hq
        rw [hscore]
        rcases List.mem_cons.mp hq with rfl | hq'
        · exact minScoreFrom_le_seed rest q.score
        · exact minScoreFrom_le_mem rest p.score q hq'
      · exact hlast
  · constructor
    · constructor
      · rintro ⟨w, hw⟩
        unfold startNextRound at hw
        rw [if_neg hcase] at hw
        cases hw
      · intro hex
        exact absurd (hany.mpr hex) hcase
    · intro w hw
      unfold startNextRound at hw
      rw [if_neg hcase] at hw
      cases hw

/-- C8 amended witness: at the all-tied ceiling the game-over branch is
taken, and the reported winner is the last minimal-score player. -/
theorem startNextRound_gameover_spec_witness :
    ∃ w, startNextRound [wP250a, wP250b] 1 [] = .gameOver w :=
  (startNextRound_gameover_spec [wP250a, wP250b] 1 [] (by decide)).1.mpr
    ⟨wP250a, by decide, by decide⟩

lemma adjustedPoints_nil_decls (p : Player) :
    adjustedPoints [] p = calculateHandPoints p.hand := by
  unfold adjustedPoints
  have hstep : ∀ (l : List Card) (b : Int),
      l.foldl (fun pts card =>
        if !card.isJoker && matchesDeclaration [] card then pts + 30 else pts) b = b := by
    intro l
    induction l with
    | nil => intro b; rfl
    | cons c t ih =>
      intro b
      rw [List.foldl_cons]
      have : (!c.isJoker && matchesDeclaration [] c) = false := by
        unfold matchesDeclaration
        simp
      rw [this]
      exact ih b
  exact hstep p.hand _

/-- C10. Starting the next round (no one at the ceiling) clears the
declaration log along with the board and discard pile, and under an empty
declaration log round scoring is pure hand points — no declared-identity
penalty can reach a later round. -/
theorem startNextRound_clears_declarations (players : List Player) (round : Nat)
    (deck : List Card) (h : ¬ ∃ p ∈ players, MAX_SCORE ≤ p.score) :
    (∃ st, startNextRound players round deck = .nextRound st ∧
      st.jokerDeclarations = [] ∧ st.boardSequences = initialSequences ∧
      st.discardPile = [] ∧ st.round = round + 1) ∧
    (∀ p : Player, adjustedPoints [] p = calculateHandPoints p.hand) := by
  have hany : (players.any (fun q => decide (q.score ≥ MAX_SCORE))) ≠ true := by
    intro hx
    rw [List.any_eq_true] at hx
    obtain ⟨q, hq, hd⟩ := hx
    exact h ⟨q, hq, of_decide_eq_true hd⟩
  refine ⟨?_, fun p => adjustedPoints_nil_decls p⟩
  unfold startNextRound
  rw [if_neg hany]
  exact ⟨_, rfl, rfl, rfl, rfl, rfl⟩

/-- C10 witness: from the two sub-ceiling concrete players, the next round
starts with an empty declaration log and a fresh board. -/
theorem startNextRound_clears_declarations_witness :
    ∃ st, startNextRound wPlayersC1 1 [] = .nextRound st ∧
      st.jokerDeclarations = [] ∧ st.boardSequences = initialSequences ∧
      st.discardPile = [] ∧ st.round = 2 :=
  (startNextRound_clears_declarations wPlayersC1 1 [] (by decide)).1

end Sevens
